import Mathlib

/-!
Verification of the openbankingMCP repository against its specification.

Part I embeds the web-layer data transforms that are present as TypeScript
source (`web/lib/normalize.ts`, `web/components/FileDrop.tsx`, the HMRC CSV
exporter).  Part II models the OAuth/PKCE core (authorization-request
tracker, consent ledger, token-exchange client, retention sweeper, audit
emitter): that core is described by the specification but its implementation
files are not part of the source tree here, so those definitions are
modelled from the spec, as indicated on each definition.

Numbers flowing through the web layer are modelled as rationals; strings as
Lean `String` (a packed `List Char`).
-/

namespace OBWeb

/-- A JavaScript number that is not NaN: a finite value (modelled as an
exact rational — IEEE 754 mantissa rounding is idealized away, which does
not affect sign, absolute value or NaN-ness) or one of the two infinities.
NaN itself is represented by `none` at the use sites, since the only
consumer (`parseAmount`) tests `Number.isNaN` and throws. -/
inductive JsNum where
  | finite (q : ℚ)
  | posInf
  | negInf
deriving DecidableEq

/-- Source type `Tx` from `web/lib/types.ts`: a normalized transaction.
The `amount` field is a JavaScript `number` in the source, modelled as
`JsNum`; the `direction` field is the string union `"in" | "out"`,
modelled as a `String`. -/
structure Tx where
  id : String
  date : String
  description : String
  amount : JsNum
  direction : String
  account : String
  category : Option String := none
  note : Option String := none
deriving DecidableEq

/-- Source type `CsvRow` from `web/lib/schema.ts` (zod object): `Date`,
`Description`, `Amount` required strings, the rest optional.  The source
field named `Type` is called `typeCol` here because `Type` is reserved in
Lean; it is never read by the embedded code. -/
structure CsvRow where
  Date : String
  Description : String
  Amount : String
  Currency : Option String := none
  Balance : Option String := none
  typeCol : Option String := none
  Account : Option String := none
deriving DecidableEq

/-- The ECMAScript `\s` class (WhiteSpace and LineTerminator code
points): tab, LF, VT, FF, CR, space, NBSP, U+1680, U+2000–U+200A,
U+2028, U+2029, U+202F, U+205F, U+3000, U+FEFF. -/
def jsWhitespace (c : Char) : Bool :=
  let n := c.toNat
  n == 9 || n == 10 || n == 11 || n == 12 || n == 13 || n == 32 ||
  n == 0xa0 || n == 0x1680 || (0x2000 ≤ n && n ≤ 0x200a) ||
  n == 0x2028 || n == 0x2029 || n == 0x202f || n == 0x205f ||
  n == 0x3000 || n == 0xfeff

/-- The character class `[,Â£\s]` of `parseAmount`'s `replace` call in
`web/lib/normalize.ts` (the source file literally contains the two
characters U+00C2 and U+00A3 inside the class). -/
def isStrippedChar (c : Char) : Bool :=
  c == ',' || c == 'Â' || c == '£' || jsWhitespace c

/-- `String(raw).replace(/[,Â£\s]/g, "")` from `parseAmount`. -/
def stripAmount (s : String) : String :=
  String.mk (s.data.filter (fun c => !isStrippedChar c))

/-- Numeric value of a list of decimal digit characters. -/
def digitsToNat (cs : List Char) : Nat :=
  cs.foldl (fun a c => a * 10 + (c.toNat - 48)) 0

/-- Value of one digit character in bases up to 16. -/
def hexDigitVal (c : Char) : Option Nat :=
  if c.isDigit then some (c.toNat - 48)
  else if 'a' ≤ c && c ≤ 'f' then some (c.toNat - 87)
  else if 'A' ≤ c && c ≤ 'F' then some (c.toNat - 55)
  else none

/-- Value of a nonempty digit string in radix `b` (2, 8 or 16); `none` on
an empty string or a digit outside the radix. -/
def radixVal (b : Nat) (cs : List Char) : Option Nat :=
  if cs.isEmpty then none
  else
    cs.foldl
      (fun acc c =>
        match acc, hexDigitVal c with
        | some a, some d => if d < b then some (a * b + d) else none
        | _, _ => none)
      (some 0)

/-- The optional `ExponentPart` of a decimal literal: empty means exponent
zero; `e`/`E`, an optional sign and at least one digit give the exponent;
anything else makes the literal invalid. -/
def parseExpPart : List Char → Option Int
  | [] => some 0
  | c :: r =>
    if c == 'e' || c == 'E' then
      let (eneg, r2) :=
        match r with
        | '-' :: t => (true, t)
        | '+' :: t => (false, t)
        | t => (false, t)
      if !r2.isEmpty && r2.all Char.isDigit then
        some (if eneg then -(digitsToNat r2 : Int) else (digitsToNat r2 : Int))
      else none
    else none

/-- The unsigned `StrUnsignedDecimalLiteral` grammar of `Number(...)`:
integer digits, optional `.` fraction, optional exponent, at least one
digit in the mantissa. -/
def parseDecimalCore (cs : List Char) : Option ℚ :=
  let ip := cs.takeWhile Char.isDigit
  let r1 := cs.drop ip.length
  match r1 with
  | '.' :: r2 =>
    let fp := r2.takeWhile Char.isDigit
    let r3 := r2.drop fp.length
    if ip.isEmpty && fp.isEmpty then none
    else
      (parseExpPart r3).map fun e =>
        ((digitsToNat ip : ℚ) + (digitsToNat fp : ℚ) / (10 : ℚ) ^ fp.length) * (10 : ℚ) ^ e
  | _ =>
    if ip.isEmpty then none
    else (parseExpPart r1).map fun e => (digitsToNat ip : ℚ) * (10 : ℚ) ^ e

/-- The IEEE 754 double overflow threshold: an exact magnitude of at least
`2^1024 - 2^970` rounds to infinity. -/
def overflowBound : ℚ := (2 : ℚ) ^ 1024 - (2 : ℚ) ^ 970

/-- Conversion of an exact literal value to a JavaScript number: values
beyond the double range become the corresponding infinity (mantissa
rounding of in-range values is idealized away). -/
def doubleClamp (q : ℚ) : JsNum :=
  if q ≥ overflowBound then JsNum.posInf
  else if q ≤ -overflowBound then JsNum.negInf
  else JsNum.finite q

/-- The unsigned `NonDecimalIntegerLiteral` grammar of `Number(...)`:
`0x`/`0X` hex, `0o`/`0O` octal, `0b`/`0B` binary (no sign allowed). -/
def parseNonDecimal : List Char → Option Nat
  | '0' :: x :: rest =>
    if x == 'x' || x == 'X' then radixVal 16 rest
    else if x == 'o' || x == 'O' then radixVal 8 rest
    else if x == 'b' || x == 'B' then radixVal 2 rest
    else none
  | _ => none

/-- JavaScript `Number` applied to an already-stripped amount string (no
whitespace remains, so no trimming step): the empty string converts to
`0`; an unsigned non-decimal integer literal, or an optionally signed
`Infinity` or decimal literal with optional fraction and exponent;
everything else is NaN (`none`). -/
def jsNumber (s : String) : Option JsNum :=
  let cs := s.data
  if cs.isEmpty then some (JsNum.finite 0)
  else
    match parseNonDecimal cs with
    | some n => some (doubleClamp (n : ℚ))
    | none =>
      let (neg, r) :=
        match cs with
        | '-' :: t => (true, t)
        | '+' :: t => (false, t)
        | t => (false, t)
      if r = "Infinity".data then some (if neg then JsNum.negInf else JsNum.posInf)
      else
        match parseDecimalCore r with
        | none => none
        | some q => some (doubleClamp (if neg then -q else q))

/-- `Math.abs` on a non-NaN number. -/
def jsAbs : JsNum → JsNum
  | .finite q => .finite |q|
  | .posInf => .posInf
  | .negInf => .posInf

/-- The comparison `n >= 0` on a non-NaN number (`Infinity >= 0` is
true, `-Infinity >= 0` is false). -/
def jsNonneg : JsNum → Bool
  | .finite q => decide (0 ≤ q)
  | .posInf => true
  | .negInf => false

/-- `parseAmount` from `web/lib/normalize.ts`: strips `[,Â£\s]`, converts
with `Number`; `NaN` throws (modelled as `none`); otherwise the absolute
value together with direction `"in"` when `n >= 0`, else `"out"`. -/
def parseAmount (raw : String) : Option (JsNum × String) :=
  match jsNumber (stripAmount raw) with
  | none => none
  | some n => some (jsAbs n, if jsNonneg n then "in" else "out")

/-- Left-pad with `'0'` to two characters: `mm.padStart(2, "0")`. -/
def pad2 (s : String) : String :=
  if s.length ≥ 2 then s
  else if s.length = 1 then "0" ++ s
  else "00"

/-- Gregorian calendar validity of a year/month/day triple, the content of
date-fns `isValid(parseISO iso)` for a `yyyy-mm-dd` string. -/
def validYmd (y m d : Nat) : Bool :=
  let leap := (y % 4 == 0 && y % 100 != 0) || y % 400 == 0
  let mlen :=
    if m = 2 then (if leap then 29 else 28)
    else if m = 4 || m = 6 || m = 9 || m = 11 then 30
    else 31
  1 ≤ m && m ≤ 12 && 1 ≤ d && d ≤ mlen

/-- Validate an ISO `yyyy-mm-dd` string; returns it back (date-fns
`format(d, "yyyy-MM-dd")`) when valid. -/
def checkIso (iso : String) : Option String :=
  match iso.splitOn "-" with
  | [ys, ms, ds] =>
    if ys.length = 4 && ms.length = 2 && ds.length = 2
        && ys.data.all Char.isDigit && ms.data.all Char.isDigit && ds.data.all Char.isDigit
        && validYmd (digitsToNat ys.data) (digitsToNat ms.data) (digitsToNat ds.data) then
      some iso
    else none
  | _ => none

/-- `parseDateUK` from `web/lib/normalize.ts`: accepts `dd/mm/yyyy` or
`yyyy-mm-dd`; slash dates are re-assembled as ISO with zero-padding; an
invalid date throws (modelled as `none`). -/
def parseDateUK (raw : String) : Option String :=
  if raw.contains '/' then
    match raw.splitOn "/" with
    | [dd, mm, yyyy] => checkIso (yyyy ++ "-" ++ pad2 mm ++ "-" ++ pad2 dd)
    | _ => none
  else checkIso raw

/-- Body of `normalize`'s `rows.map((r, i) => ...)`: the amount is parsed
first, then the date, and the first failure aborts the whole map (a thrown
exception in the source, `Except.error` here). -/
def normalizeGo : Nat → List CsvRow → Except String (List Tx)
  | _, [] => .ok []
  | i, r :: rest =>
    match parseAmount r.Amount with
    | none => .error ("Bad amount: " ++ r.Amount)
    | some (amount, direction) =>
      match parseDateUK r.Date with
      | none => .error ("Bad date: " ++ r.Date)
      | some date =>
        match normalizeGo (i + 1) rest with
        | .error e => .error e
        | .ok txs =>
          .ok ({ id := "tx_" ++ toString i, date := date,
                 description := r.Description.trim, amount := amount,
                 direction := direction,
                 account := r.Account.getD "Primary" } :: txs)

/-- `normalize` from `web/lib/normalize.ts`. -/
def normalize (rows : List CsvRow) : Except String (List Tx) :=
  normalizeGo 0 rows

/-- `RULES` from `web/components/FileDrop.tsx`: each case-insensitive
alternation regex is modelled as the list of its alternatives. -/
def RULES : List (List String × String) :=
  [ (["UBER", "BOLT", "LYFT"], "Travel"),
    (["STARLING", "MONZO", "REVOLUT"], "Bank Fees"),
    (["AWS", "GCP", "AZURE"], "Hosting"),
    (["SUBSTACK", "NOTION", "GOOGLE"], "Software"),
    (["PRET", "CAFFE", "STARBUCKS"], "Meals") ]

/-- Case-folded character list of a string. -/
def upperChars (s : String) : List Char :=
  s.data.map Char.toUpper

/-- `r.match.test(desc)` for an alternation regex `/A|B|C/i`: some
alternative occurs case-insensitively as a substring. -/
def regexTestCI (pats : List String) (s : String) : Bool :=
  pats.any fun p => decide (upperChars p <:+: upperChars s)

/-- `categorize` from `web/components/FileDrop.tsx`: first matching rule or
`"Uncategorized"`, then the (dead) `"Shopping"` to `"General expenses"`
rewrite, written onto the transaction. -/
def categorize (txs : List Tx) : List Tx :=
  txs.map fun t =>
    let hit := RULES.find? fun r => regexTestCI r.1 t.description
    let category0 := (hit.map Prod.snd).getD "Uncategorized"
    let category := if category0 = "Shopping" then "General expenses" else category0
    { t with category := some category }

/-- `csvSafe` from the HMRC exporter (`src/unnamed/part_003`): wrap in
double quotes, doubling inner quotes, exactly when the value contains a
quote, comma or newline. -/
def csvSafe (s : String) : String :=
  if s.data.any (fun c => c == '"' || c == ',' || c == '\n') then
    "\"" ++ String.mk (s.data.flatMap fun c => if c == '"' then ['"', '"'] else [c]) ++ "\""
  else s

/-- Decimal digit character. -/
def digitChar (d : Nat) : Char :=
  Char.ofNat (48 + d)

/-- `ToString` of a nonnegative number of magnitude at least `10^21`,
which JavaScript prints in exponential notation: significant decimal
digits of the integer part (digits a double cannot carry at this magnitude
are idealized away), a `.` separating all but the first when more than one
remains, then `e+` and the decimal exponent.  `(1e21).toString()` is
`"1e+21"`, `(1.5e22).toString()` is `"1.5e+22"`. -/
def jsLargeToString (q : ℚ) : String :=
  let ds := (Nat.repr (⌊q⌋.toNat)).data
  let k := ds.length - 1
  let mant := (ds.reverse.dropWhile (fun c => c == '0')).reverse
  match mant with
  | [] => "0"
  | m1 :: mrest =>
    String.mk [m1] ++ (if mrest.isEmpty then "" else "." ++ String.mk mrest)
      ++ "e+" ++ Nat.repr k

/-- `toFixed(2)` on a nonnegative magnitude (ECMAScript
`Number.prototype.toFixed` after sign extraction): magnitudes of at least
`10^21` fall back to exponential `ToString`; below that, round half up to
hundredths and print with exactly two digits after the point. -/
def toFixed2Mag (q : ℚ) : String :=
  if q ≥ (10 : ℚ) ^ 21 then jsLargeToString q
  else
    let n : Nat := (⌊q * 100 + 1 / 2⌋).toNat
    Nat.repr (n / 100) ++ String.mk ['.', digitChar (n / 10 % 10), digitChar (n % 10)]

/-- JavaScript `amount.toFixed(2)`: `"Infinity"`/`"-Infinity"` on the
infinities, otherwise a `"-"` sign for negative values followed by the
magnitude rendering (with its `10^21` exponential fallback). -/
def toFixed2 (v : JsNum) : String :=
  match v with
  | .posInf => "Infinity"
  | .negInf => "-Infinity"
  | .finite q => if q < 0 then "-" ++ toFixed2Mag (-q) else toFixed2Mag q

/-- One body row of `toSelfAssessmentCSV`: the seven fields in source
order, `csvSafe` applied to `Description` and `Note` only, missing
`category`/`note` as the empty string. -/
def renderRow (t : Tx) : String :=
  String.intercalate ","
    [t.date, csvSafe t.description, t.category.getD "", toFixed2 t.amount,
     t.direction, t.account, csvSafe (t.note.getD "")]

/-- The header line of `toSelfAssessmentCSV`. -/
def csvHeader : String :=
  String.intercalate "," ["Date", "Description", "Category", "Amount", "Direction", "Account", "Note"]

/-- `toSelfAssessmentCSV` from `src/unnamed/part_003`. -/
def toSelfAssessmentCSV (txs : List Tx) : String :=
  String.intercalate "\n" (csvHeader :: txs.map renderRow)

/-- A sample transaction used to instantiate theorems on concrete data. -/
def sampleTx : Tx :=
  { id := "t1", date := "2024-01-02", description := "UBER TRIP",
    amount := JsNum.finite 5, direction := "out", account := "Primary" }

/-- A sample CSV row whose amount does not parse. -/
def sampleRow : CsvRow :=
  { Date := "2024-01-01", Description := "x", Amount := "abc" }

end OBWeb

namespace OBCore

/-! ### PKCE challenge builder

Modelled from the spec: the implementation file (`pkce.py`) referenced by
the repository's documentation is not part of the source tree, so the
builder is modelled from §4.2: "`build_challenge(verifier) -> challenge`
applies a deterministic one-way transform (SHA-256 digest, URL-safe base64
encoding, no padding) to the verifier."  SHA-256 is spelled out (FIPS
180-4) over byte lists, words as naturals reduced mod `2^32`. -/

/-- 32-bit right rotation. -/
def rotr (n x : Nat) : Nat :=
  ((x >>> n) ||| (x <<< (32 - n))) % 4294967296

/-- SHA-256 Σ₀. -/
def bigSigma0 (x : Nat) : Nat := rotr 2 x ^^^ rotr 13 x ^^^ rotr 22 x

/-- SHA-256 Σ₁. -/
def bigSigma1 (x : Nat) : Nat := rotr 6 x ^^^ rotr 11 x ^^^ rotr 25 x

/-- SHA-256 σ₀. -/
def smallSigma0 (x : Nat) : Nat := rotr 7 x ^^^ rotr 18 x ^^^ (x >>> 3)

/-- SHA-256 σ₁. -/
def smallSigma1 (x : Nat) : Nat := rotr 17 x ^^^ rotr 19 x ^^^ (x >>> 10)

/-- SHA-256 `Ch`; the complement is XOR with the 32-bit mask. -/
def chF (x y z : Nat) : Nat := (x &&& y) ^^^ ((x ^^^ 4294967295) &&& z)

/-- SHA-256 `Maj`. -/
def majF (x y z : Nat) : Nat := (x &&& y) ^^^ (x &&& z) ^^^ (y &&& z)

/-- The 64 SHA-256 round constants (FIPS 180-4 §4.2.2), written in
decimal. -/
def sha256K : List Nat :=
  [1116352408, 1899447441, 3049323471, 3921009573, 961987163,
   1508970993, 2453635748, 2870763221, 3624381080, 310598401,
   607225278, 1426881987, 1925078388, 2162078206, 2614888103,
   3248222580, 3835390401, 4022224774, 264347078, 604807628,
   770255983, 1249150122, 1555081692, 1996064986, 2554220882,
   2821834349, 2952996808, 3210313671, 3336571891, 3584528711,
   113926993, 338241895, 666307205, 773529912, 1294757372,
   1396182291, 1695183700, 1986661051, 2177026350, 2456956037,
   2730485921, 2820302411, 3259730800, 3345764771, 3516065817,
   3600352804, 4094571909, 275423344, 430227734, 506948616,
   659060556, 883997877, 958139571, 1322822218, 1537002063,
   1747873779, 1955562222, 2024104815, 2227730452, 2361852424,
   2428436474, 2756734187, 3204031479, 3329325298]

/-- SHA-256 chaining state, eight 32-bit words. -/
structure Sha256State where
  h0 : Nat
  h1 : Nat
  h2 : Nat
  h3 : Nat
  h4 : Nat
  h5 : Nat
  h6 : Nat
  h7 : Nat
deriving DecidableEq

/-- SHA-256 initial hash value (FIPS 180-4 §5.3.3), written in decimal. -/
def sha256Init : Sha256State :=
  ⟨1779033703, 3144134277, 1013904242, 2773480762,
   1359893119, 2600822924, 528734635, 1541459225⟩

/-- Big-endian 32-bit word from four bytes. -/
def word32 (b0 b1 b2 b3 : Nat) : Nat :=
  (b0 <<< 24) + (b1 <<< 16) + (b2 <<< 8) + b3

/-- Group a byte list into big-endian words. -/
def toWords : List Nat → List Nat
  | b0 :: b1 :: b2 :: b3 :: rest => word32 b0 b1 b2 b3 :: toWords rest
  | _ => []

/-- Extend the 16-word message schedule by the given number of words. -/
def sched (w : List Nat) : Nat → List Nat
  | 0 => w
  | k + 1 =>
    let n := w.length
    let wi := (smallSigma1 (w.getD (n - 2) 0) + w.getD (n - 7) 0
               + smallSigma0 (w.getD (n - 15) 0) + w.getD (n - 16) 0) % 4294967296
    sched (w ++ [wi]) k

/-- Working registers a..h of the compression loop. -/
structure Regs where
  a : Nat
  b : Nat
  c : Nat
  d : Nat
  e : Nat
  f : Nat
  g : Nat
  h : Nat

/-- One SHA-256 round, fed the pair (round constant, schedule word). -/
def roundStep (r : Regs) (kw : Nat × Nat) : Regs :=
  let t1 := (r.h + bigSigma1 r.e + chF r.e r.f r.g + kw.1 + kw.2) % 4294967296
  let t2 := (bigSigma0 r.a + majF r.a r.b r.c) % 4294967296
  ⟨(t1 + t2) % 4294967296, r.a, r.b, r.c, (r.d + t1) % 4294967296, r.e, r.f, r.g⟩

/-- SHA-256 compression of one 64-byte block into the chaining state. -/
def compress (hs : Sha256State) (block : List Nat) : Sha256State :=
  let ws := sched (toWords block) 48
  let r0 : Regs := ⟨hs.h0, hs.h1, hs.h2, hs.h3, hs.h4, hs.h5, hs.h6, hs.h7⟩
  let r := (sha256K.zip ws).foldl roundStep r0
  ⟨(hs.h0 + r.a) % 4294967296, (hs.h1 + r.b) % 4294967296,
   (hs.h2 + r.c) % 4294967296, (hs.h3 + r.d) % 4294967296,
   (hs.h4 + r.e) % 4294967296, (hs.h5 + r.f) % 4294967296,
   (hs.h6 + r.g) % 4294967296, (hs.h7 + r.h) % 4294967296⟩

/-- SHA-256 padding: `0x80`, zeros to 56 mod 64, 8-byte big-endian bit
length. -/
def padMsg (msg : List Nat) : List Nat :=
  let L := msg.length
  let k := (119 - L % 64) % 64
  msg ++ [128] ++ List.replicate k 0
      ++ (List.range 8).map fun i => ((8 * L) >>> (8 * (7 - i))) % 256

/-- Split a byte list into 64-byte blocks. -/
def chunks64 : List Nat → List (List Nat)
  | [] => []
  | x :: rest => (x :: rest).take 64 :: chunks64 (rest.drop 63)
termination_by l => l.length
decreasing_by
  simp only [List.length_drop, List.length_cons]
  omega

/-- Big-endian bytes of a 32-bit word. -/
def wordBytes (w : Nat) : List Nat :=
  [(w >>> 24) % 256, (w >>> 16) % 256, (w >>> 8) % 256, w % 256]

/-- The 32 digest bytes of a chaining state. -/
def hashBytes (hs : Sha256State) : List Nat :=
  wordBytes hs.h0 ++ wordBytes hs.h1 ++ wordBytes hs.h2 ++ wordBytes hs.h3
    ++ wordBytes hs.h4 ++ wordBytes hs.h5 ++ wordBytes hs.h6 ++ wordBytes hs.h7

/-- SHA-256 of a byte list. -/
def sha256 (msg : List Nat) : List Nat :=
  hashBytes ((chunks64 (padMsg msg)).foldl compress sha256Init)

/-- The URL-safe base64 alphabet (RFC 4648 §5): `-` and `_` instead of
`+` and `/`; no padding character. -/
def b64Chars : List Char :=
  "ABCDEFGHIJKLMNOPQRSTUVWXYZabcdefghijklmnopqrstuvwxyz0123456789-_".data

/-- Alphabet character of a 6-bit value. -/
def b64Char (n : Nat) : Char :=
  b64Chars.getD n 'A'

/-- URL-safe base64 of a byte list, without padding. -/
def b64NoPad : List Nat → List Char
  | [] => []
  | [b1] => [b64Char (b1 / 4), b64Char (b1 % 4 * 16)]
  | [b1, b2] => [b64Char (b1 / 4), b64Char (b1 % 4 * 16 + b2 / 16), b64Char (b2 % 16 * 4)]
  | b1 :: b2 :: b3 :: rest =>
    b64Char (b1 / 4) :: b64Char (b1 % 4 * 16 + b2 / 16)
      :: b64Char (b2 % 16 * 4 + b3 / 64) :: b64Char (b3 % 64) :: b64NoPad rest

/-- Modelled from the spec (§4.2): `build_challenge(verifier)` is the
URL-safe, unpadded base64 encoding of the SHA-256 digest of the verifier's
bytes. -/
def build_challenge (verifierBytes : List Nat) : String :=
  String.mk (b64NoPad (sha256 verifierBytes))

/-! ### Audit events and redaction

Modelled from the spec (§3 AuditEvent, §4.4, §4.7, §9): the emitter's event
type structurally excludes secret fields; where a token is mentioned at
all, only its length and a fixed-width hash are rendered. -/

/-- The audit event kinds of §3. -/
inductive AuditKind where
  | RequestIssued
  | RequestConsumed
  | RequestExpired
  | GrantCreated
  | GrantRevoked
  | GrantExpired
  | TokenExchangeFailed
deriving DecidableEq

/-- Modelled from the spec: `AuditEvent` of §3 — kind, subject reference,
timestamp and free-form detail that must never contain raw secret
material. -/
structure AuditEvent where
  kind : AuditKind
  subject_ref : String
  timestamp : Nat
  detail : String
deriving DecidableEq

/-- Printable name of an event kind. -/
def kindName : AuditKind → String
  | .RequestIssued => "RequestIssued"
  | .RequestConsumed => "RequestConsumed"
  | .RequestExpired => "RequestExpired"
  | .GrantCreated => "GrantCreated"
  | .GrantRevoked => "GrantRevoked"
  | .GrantExpired => "GrantExpired"
  | .TokenExchangeFailed => "TokenExchangeFailed"

/-- Hexadecimal digit character. -/
def hexChar (d : Nat) : Char :=
  Char.ofNat (if d < 10 then 48 + d else 87 + d)

/-- Decimal digit characters of a natural number. -/
def natDigits (n : Nat) : List Char :=
  if n < 10 then [hexChar n]
  else natDigits (n / 10) ++ [hexChar (n % 10)]
termination_by n
decreasing_by
  omega

/-- 32-bit accumulator hash of a token, used only for fingerprints. -/
def tokenHashVal (t : String) : Nat :=
  t.data.foldl (fun acc c => (acc * 31 + c.toNat) % 4294967296) 5381

/-- Fixed-width (8 hex characters) rendering of the token hash. -/
def hash8 (t : String) : List Char :=
  (List.range 8).map fun i => hexChar ((tokenHashVal t >>> (4 * i)) % 16)

/-- Modelled from the spec (§4.4): the only rendering of a token a log
line may carry — its length and a prefix-hash, never the value. -/
def fingerprint (token : String) : String :=
  String.mk ("len=".data ++ natDigits token.length ++ ";h=".data ++ hash8 token)

/-- The string fields of an emitted audit event, the strings a log scanner
sees (the timestamp is numeric, not a string). -/
def renderFields (e : AuditEvent) : List (List Char) :=
  [(kindName e.kind).data, e.subject_ref.data, e.detail.data]

/-! ### Authorization request tracker

Modelled from the spec (§3 AuthorizationRequest, §4.3): the tracker's
implementation is not part of the source tree; the store is keyed by the
state nonce. -/

/-- Lifecycle states of an authorization request (§3). -/
inductive ReqStatus where
  | Issued
  | Consumed
  | Completed
  | Failed
  | Expired
deriving DecidableEq

/-- Modelled from the spec: `AuthorizationRequest` of §3. -/
structure AuthorizationRequest where
  state_nonce : String
  code_verifier : String
  code_challenge : String
  requested_scopes : List String
  created_at : Nat
  expires_at : Nat
  status : ReqStatus
deriving DecidableEq

/-- Tracker errors of §4.3 / §7. -/
inductive TrackerError where
  | NonceNotFound
  | NonceAlreadyConsumed
  | NonceExpired
deriving DecidableEq

/-- The tracker's in-memory store, keyed by nonce. -/
abbrev Tracker := List (String × AuthorizationRequest)

/-- Find the request stored under a nonce. -/
def lookupNonce : Tracker → String → Option AuthorizationRequest
  | [], _ => none
  | (k, r) :: rest, n => if k = n then some r else lookupNonce rest n

/-- Replace the request stored under a nonce (first occurrence). -/
def setNonce : Tracker → String → AuthorizationRequest → Tracker
  | [], _, _ => []
  | (k, r) :: rest, n, r2 => if k = n then (k, r2) :: rest else (k, r) :: setNonce rest n r2

/-- Modelled from the spec (§4.3): `consume(nonce, returned_state)` —
`NonceNotFound` if the nonce is unknown, `NonceAlreadyConsumed` if the
stored status is not `Issued` (replay rejected), `NonceExpired` past the
window; otherwise atomically transitions `Issued -> Consumed` and returns
the stored request.  The returned state IS the nonce in this design, so a
single argument carries both. -/
def consume (now : Nat) (nonce : String) (tr : Tracker) :
    Except TrackerError (AuthorizationRequest × Tracker) :=
  match lookupNonce tr nonce with
  | none => .error .NonceNotFound
  | some r =>
    if r.status ≠ .Issued then .error .NonceAlreadyConsumed
    else if r.expires_at < now then .error .NonceExpired
    else
      let r2 := { r with status := ReqStatus.Consumed }
      .ok (r2, setNonce tr nonce r2)

/-! ### Consent ledger

Modelled from the spec (§3 ConsentGrant, §4.5): grants are retained in
`Revoked` status on revocation (the spec leaves hard-deletion open, §9, but
requires `revoke` to be an idempotent success, which retention gives). -/

/-- Grant states of §3: `Active -> {Expired, Revoked}`. -/
inductive GrantStatus where
  | Active
  | Expired
  | Revoked
deriving DecidableEq

/-- Modelled from the spec: `ConsentGrant` of §3. -/
structure ConsentGrant where
  id : String
  subject_ref : String
  scopes : List String
  access_token : String
  refresh_token : String
  granted_at : Nat
  expires_at : Nat
  status : GrantStatus
deriving DecidableEq

/-- The consent ledger's in-memory store. -/
abbrev Ledger := List ConsentGrant

/-- `lookup` miss. -/
inductive LookupError where
  | NotFound
deriving DecidableEq

/-- `revoke` miss. -/
inductive RevokeError where
  | NotFound
deriving DecidableEq

/-- First grant of a subject. -/
def findSubject (L : Ledger) (s : String) : Option ConsentGrant :=
  L.find? fun g => g.subject_ref == s

/-- First grant with an id. -/
def findId (L : Ledger) (i : String) : Option ConsentGrant :=
  L.find? fun g => g.id == i

/-- Replace the first grant carrying an id. -/
def setById : Ledger → String → ConsentGrant → Ledger
  | [], _, _ => []
  | g :: rest, i, g2 => if g.id = i then g2 :: rest else g :: setById rest i g2

/-- Modelled from the spec (§4.5): `lookup(subject_ref)` applies
lazy-expiry — if `expires_at` has passed, treats and marks the grant as
`Expired` before returning it, rather than returning stale `Active`
state.  Returns the (possibly marked) ledger alongside. -/
def lookupGrant (now : Nat) (s : String) (L : Ledger) :
    Except LookupError ConsentGrant × Ledger :=
  match findSubject L s with
  | none => (.error .NotFound, L)
  | some g =>
    if g.expires_at < now then
      let g2 := { g with status := GrantStatus.Expired }
      (.ok g2, setById L g.id g2)
    else (.ok g, L)

/-- Modelled from the spec (§4.5): `revoke(id)` transitions
`Active -> Revoked` immediately and is an idempotent no-op success on a
grant already in a terminal status. -/
def revoke (i : String) (L : Ledger) : Except RevokeError Ledger :=
  match findId L i with
  | none => .error .NotFound
  | some g =>
    if g.status = GrantStatus.Active then .ok (setById L i { g with status := GrantStatus.Revoked })
    else .ok L

/-! ### Token exchange client

Modelled from the spec (§4.4): the network is outside the core, so the
outcome of each successive attempt is an input; transient failures are
retried up to the retry budget, 4xx outcomes are terminal. -/

/-- Terminal exchange errors of §4.4 / §7 (`RetriesExhausted` is the
surfaced form of an exhausted transient-retry budget). -/
inductive ExchangeError where
  | AuthorizationCodeInvalid
  | ClientAuthenticationFailed
  | RetriesExhausted
deriving DecidableEq

/-- Token-endpoint success payload. -/
structure TokenPair where
  access_token : String
  refresh_token : String
  scopes : List String
deriving DecidableEq

/-- Outcome of one network attempt against the token endpoint. -/
inductive Attempt where
  | transient
  | terminal (e : ExchangeError)
  | success (tp : TokenPair)
deriving DecidableEq

/-- Modelled from the spec (§4.4): `exchange` with a bounded retry budget:
the first non-transient attempt decides; running out of attempts or budget
surfaces `RetriesExhausted`. -/
def exchange : Nat → List Attempt → Except ExchangeError TokenPair
  | 0, _ => .error .RetriesExhausted
  | _ + 1, [] => .error .RetriesExhausted
  | n + 1, a :: rest =>
    match a with
    | .success tp => .ok tp
    | .terminal e => .error e
    | .transient => exchange n rest

/-! ### Retention sweeper

Modelled from the spec (§4.6): one sweep transitions every entry past its
`expires_at` to `Expired` (when not already terminal), emits one
`GrantExpired` / `RequestExpired` event per entry, and removes the entry
from the store. -/

/-- The transition the sweeper records before removal. -/
def expireGrant (g : ConsentGrant) : ConsentGrant :=
  if g.status = GrantStatus.Active then { g with status := GrantStatus.Expired } else g

/-- Modelled from the spec (§4.6): sweep the consent ledger at a given
time; returns the surviving store and the emitted events. -/
def sweepLedger (now : Nat) (L : Ledger) : Ledger × List AuditEvent :=
  let expired := (L.filter fun g => decide (g.expires_at < now)).map expireGrant
  (L.filter fun g => !decide (g.expires_at < now),
   expired.map fun g => { kind := .GrantExpired, subject_ref := g.subject_ref, timestamp := now, detail := "" })

/-- Modelled from the spec (§4.6): sweep the request tracker at a given
time. -/
def sweepTracker (now : Nat) (tr : Tracker) : Tracker × List AuditEvent :=
  (tr.filter fun p => !decide (p.2.expires_at < now),
   (tr.filter fun p => decide (p.2.expires_at < now)).map
     fun _ => { kind := .RequestExpired, subject_ref := "", timestamp := now, detail := "" })

/-! ### The assembled core: world state and operations -/

/-- The shared in-memory state of §5: tracker store, consent ledger, and
the append-only audit log. -/
structure World where
  tracker : Tracker
  ledger : Ledger
  log : List AuditEvent
deriving DecidableEq

/-- The empty state at process start. -/
def World.init : World := ⟨[], [], []⟩

/-- Typed errors surfaced by the callback flow. -/
inductive CoreError where
  | tracker (e : TrackerError)
  | exchange (e : ExchangeError)
deriving DecidableEq

/-- Modelled from the spec (§4.3): `issue(requested_scopes)` with injected
randomness (nonce and verifier are inputs, §9): stores an `Issued` request
keyed by nonce, challenge derived from the verifier, and emits
`RequestIssued`. -/
def issue (now : Nat) (nonce verifier : String) (scopes : List String)
    (requestTtl : Nat) (w : World) : World :=
  { w with
    tracker := w.tracker ++
      [(nonce,
        { state_nonce := nonce, code_verifier := verifier,
          code_challenge := build_challenge (verifier.data.map Char.toNat),
          requested_scopes := scopes, created_at := now,
          expires_at := now + requestTtl, status := ReqStatus.Issued })],
    log := w.log ++ [{ kind := .RequestIssued, subject_ref := "", timestamp := now, detail := "" }] }

/-- Modelled from the spec (§2, §5, §7): the inbound-callback flow —
consume the nonce, exchange the code for tokens outside any lock, and only
on success record a fresh `Active` grant (`GrantCreated`); on exchange
failure emit `TokenExchangeFailed` and leave the ledger untouched. -/
def handleCallback (now : Nat) (nonce subject gid : String) (retryLimit : Nat)
    (attempts : List Attempt) (consentTtl : Nat) (w : World) :
    Except CoreError ConsentGrant × World :=
  match consume now nonce w.tracker with
  | .error e => (.error (.tracker e), w)
  | .ok (_, tr2) =>
    let w1 : World :=
      { w with tracker := tr2,
               log := w.log ++ [{ kind := .RequestConsumed, subject_ref := "", timestamp := now, detail := "" }] }
    match exchange retryLimit attempts with
    | .error e =>
      (.error (.exchange e),
       { w1 with log := w1.log ++ [{ kind := .TokenExchangeFailed, subject_ref := subject, timestamp := now, detail := "" }] })
    | .ok tp =>
      let g : ConsentGrant :=
        { id := gid, subject_ref := subject, scopes := tp.scopes,
          access_token := tp.access_token, refresh_token := tp.refresh_token,
          granted_at := now, expires_at := now + consentTtl, status := GrantStatus.Active }
      (.ok g,
       { w1 with ledger := w1.ledger ++ [g],
                 log := w1.log ++ [{ kind := .GrantCreated, subject_ref := subject, timestamp := now, detail := fingerprint tp.access_token }] })

/-- One invocation of a core operation, with its external inputs (clock,
randomness, network outcomes) injected per §9. -/
inductive Op where
  | issue (now : Nat) (nonce verifier : String) (scopes : List String) (requestTtl : Nat)
  | consume (now : Nat) (nonce : String)
  | callback (now : Nat) (nonce subject gid : String) (retryLimit : Nat)
      (attempts : List Attempt) (consentTtl : Nat)
  | lookup (now : Nat) (subject : String)
  | revoke (now : Nat) (id : String)
  | sweep (now : Nat)

/-- Execute one operation against the world; events are appended to the
log (`RequestConsumed` on a successful consume, `GrantRevoked` on an actual
`Active -> Revoked` transition, per-entry events on sweep). -/
def execOp : Op → World → World
  | .issue now nonce verifier scopes ttl, w => issue now nonce verifier scopes ttl w
  | .consume now nonce, w =>
    match consume now nonce w.tracker with
    | .error _ => w
    | .ok (_, tr2) =>
      { w with tracker := tr2,
               log := w.log ++ [{ kind := .RequestConsumed, subject_ref := "", timestamp := now, detail := "" }] }
  | .callback now nonce subject gid rl att ttl, w =>
    (handleCallback now nonce subject gid rl att ttl w).2
  | .lookup now subject, w => { w with ledger := (lookupGrant now subject w.ledger).2 }
  | .revoke now i, w =>
    match findId w.ledger i with
    | none => w
    | some g =>
      if g.status = GrantStatus.Active then
        { w with ledger := setById w.ledger i { g with status := GrantStatus.Revoked },
                 log := w.log ++ [{ kind := .GrantRevoked, subject_ref := g.subject_ref, timestamp := now, detail := "" }] }
      else w
  | .sweep now, w =>
    let swl := sweepLedger now w.ledger
    let swt := sweepTracker now w.tracker
    { tracker := swt.1, ledger := swl.1, log := w.log ++ swl.2 ++ swt.2 }

/-- Run a sequence of operations from a state: an execution of the core. -/
def run : List Op → World → World
  | [], w => w
  | op :: rest, w => run rest (execOp op w)

/-- The caller-chosen subject references an operation carries (the only
free strings that can reach an audit event's `subject_ref`). -/
def Op.subjects : Op → List String
  | .callback _ _ subject _ _ _ _ => [subject]
  | _ => []

/-- The token values an operation can feed into a log fingerprint. -/
def Op.tokens : Op → List String
  | .callback _ _ _ _ _ attempts _ =>
    attempts.foldr
      (fun a acc => match a with | .success tp => tp.access_token :: acc | _ => acc) []
  | _ => []

/-- Redaction side conditions on one operation, relative to a secret: the
secret does not occur inside a caller-chosen subject reference (subject
references are opaque and never the raw token, §3), and token lengths are
bounded (far below `10^9` in practice). -/
def opOk (secret : List Char) (op : Op) : Bool :=
  (op.subjects.all fun s => !decide (secret <:+: s.data)) &&
  (op.tokens.all fun t => decide (t.length < 1000000000))

/-- An audit event none of whose rendered string fields contains the
secret as a substring. -/
def eventOk (secret : List Char) (e : AuditEvent) : Prop :=
  ∀ f ∈ renderFields e, ¬ secret <:+: f

/-- Redaction invariant over the world: every logged event is clean and
every stored grant's subject reference is clean. -/
def worldOk (secret : List Char) (w : World) : Prop :=
  (∀ e ∈ w.log, eventOk secret e) ∧
  (∀ g ∈ w.ledger, ¬ secret <:+: g.subject_ref.data)

/-- A sample issued authorization request for concrete instantiations. -/
def sampleRequest : AuthorizationRequest :=
  { state_nonce := "n1", code_verifier := "v", code_challenge := "",
    requested_scopes := ["accounts"], created_at := 0, expires_at := 10,
    status := ReqStatus.Issued }

/-- A sample active consent grant for concrete instantiations. -/
def sampleGrant : ConsentGrant :=
  { id := "g1", subject_ref := "alice", scopes := ["accounts"],
    access_token := "tokA", refresh_token := "tokR", granted_at := 0,
    expires_at := 10, status := GrantStatus.Active }

/-- A sample 43-character secret for concrete instantiations. -/
def sampleSecret : List Char :=
  "SECRETSECRETSECRETSECRETSECRETSECRETSECRET1".data

/-- A sample execution — issue, callback with a successful exchange,
revoke, sweep — for concrete instantiations. -/
def sampleOps : List Op :=
  [Op.issue 0 "n1" "v1" ["accounts"] 600,
   Op.callback 1 "n1" "alice" "g1" 3 [Attempt.success ⟨"tokA", "tokR", ["accounts"]⟩] 1000,
   Op.revoke 2 "g1",
   Op.sweep 5000]

end OBCore

/-! ## Theorems -/

namespace OBWeb

/-- C9: `categorize` preserves the list's length, order, and every field of
each transaction except `category`, and assigns each transaction a category
from the fixed set Travel, Bank Fees, Hosting, Software, Meals,
Uncategorized (the first matching rule, or Uncategorized when none
matches); the output category is never `"Shopping"`, so the branch
rewriting `"Shopping"` to `"General expenses"` is unreachable and no
transaction is ever categorized as `"General expenses"`. -/
theorem c9_categorize (txs : List Tx) :
    (categorize txs).length = txs.length ∧
    ∀ i (hi : i < (categorize txs).length) (hj : i < txs.length),
      ((categorize txs)[i].id = txs[i].id ∧
       (categorize txs)[i].date = txs[i].date ∧
       (categorize txs)[i].description = txs[i].description ∧
       (categorize txs)[i].amount = txs[i].amount ∧
       (categorize txs)[i].direction = txs[i].direction ∧
       (categorize txs)[i].account = txs[i].account ∧
       (categorize txs)[i].note = txs[i].note) ∧
      ∃ c, (categorize txs)[i].category = some c ∧
        c ∈ ["Travel", "Bank Fees", "Hosting", "Software", "Meals", "Uncategorized"] ∧
        c ≠ "Shopping" ∧ c ≠ "General expenses" := by
  refine ⟨by simp [categorize], ?_⟩
  intro i hi hj
  simp only [categorize, List.getElem_map]
  refine ⟨by constructor <;> simp, ?_⟩
  cases hr : RULES.find? fun r => regexTestCI r.1 txs[i].description with
  | none =>
    refine ⟨"Uncategorized", ?_, by decide, by decide, by decide⟩
    simp [hr]
  | some p =>
    have hp : p ∈ RULES := List.mem_of_find?_eq_some hr
    have hcat : ((RULES.find? fun r => regexTestCI r.1 txs[i].description).map Prod.snd).getD
        "Uncategorized" = p.2 := by simp [hr]
    simp only [RULES, List.mem_cons, List.not_mem_nil, or_false] at hp
    rcases hp with h | h | h | h | h <;> subst h <;>
      exact ⟨_, rfl, by decide, by decide, by decide⟩

/-- Concrete instantiation of the C9 theorem on a one-element list. -/
theorem c9_witness :
    0 < (categorize [sampleTx]).length ∧ (categorize [sampleTx])[0].id = "t1" := by
  refine ⟨by decide, ?_⟩
  have h := (c9_categorize [sampleTx]).2 0 (by decide) (by decide)
  exact h.1.1.trans rfl

/-- Two-decimal shape of the modelled `toFixed(2)` on finite values below
the `10^21` exponential fallback. -/
theorem toFixed2_two_decimals (q : ℚ) (hq : |q| < (10 : ℚ) ^ 21) :
    ∃ (pre : List Char) (d1 d2 : Char),
      (toFixed2 (JsNum.finite q)).data = pre ++ ['.', d1, d2] ∧
      d1.isDigit = true ∧ d2.isDigit = true := by
  have hd : ∀ k : Nat, k < 10 → (digitChar k).isDigit = true := by decide
  have hpos : ∀ p : ℚ, ¬ p ≥ (10 : ℚ) ^ 21 →
      ∃ (pre : List Char) (d1 d2 : Char),
        (toFixed2Mag p).data = pre ++ ['.', d1, d2] ∧
        d1.isDigit = true ∧ d2.isDigit = true := by
    intro p hp
    refine ⟨(Nat.repr ((⌊p * 100 + 1 / 2⌋).toNat / 100)).data,
      digitChar ((⌊p * 100 + 1 / 2⌋).toNat / 10 % 10), digitChar ((⌊p * 100 + 1 / 2⌋).toNat % 10),
      ?_, hd _ (by omega), hd _ (by omega)⟩
    simp [toFixed2Mag, hp, String.data_append]
  obtain ⟨hq1, hq2⟩ := abs_lt.mp hq
  have hred : toFixed2 (JsNum.finite q)
      = if q < 0 then "-" ++ toFixed2Mag (-q) else toFixed2Mag q := rfl
  rw [hred]
  split
  · obtain ⟨pre, d1, d2, hp, h1, h2⟩ := hpos (-q) (fun hcon => by linarith)
    exact ⟨'-' :: pre, d1, d2, by simp [hp], h1, h2⟩
  · exact hpos q (fun hcon => by linarith)

/-- C10 (amended): `toSelfAssessmentCSV` returns the exact header line
followed by one comma-joined line per transaction in input order (the
empty list gives the header alone); `Amount` is rendered with exactly two
decimal places whenever it is finite with absolute value below `10^21`
(beyond that JavaScript `toFixed` falls back to exponential `ToString`,
and the infinities print as `Infinity`); a missing category or note is
rendered as the empty string, and CSV escaping is applied exactly to the
`Description` and `Note` fields, never to the other five. -/
theorem c10_toSelfAssessmentCSV :
    toSelfAssessmentCSV [] = "Date,Description,Category,Amount,Direction,Account,Note" ∧
    csvHeader = "Date,Description,Category,Amount,Direction,Account,Note" ∧
    (∀ txs : List Tx,
      toSelfAssessmentCSV txs = String.intercalate "\n" (csvHeader :: txs.map renderRow) ∧
      (txs.map renderRow).length = txs.length) ∧
    (∀ t : Tx, renderRow t = String.intercalate ","
      [t.date, csvSafe t.description, t.category.getD "", toFixed2 t.amount,
       t.direction, t.account, csvSafe (t.note.getD "")]) ∧
    (∀ q : ℚ, |q| < (10 : ℚ) ^ 21 →
      ∃ (pre : List Char) (d1 d2 : Char),
        (toFixed2 (JsNum.finite q)).data = pre ++ ['.', d1, d2] ∧
        d1.isDigit = true ∧ d2.isDigit = true) ∧
    (∀ s : String,
      (s.data.any (fun c => c == '"' || c == ',' || c == '\n') = false → csvSafe s = s) ∧
      (s.data.any (fun c => c == '"' || c == ',' || c == '\n') = true →
        csvSafe s = "\"" ++ String.mk (s.data.flatMap fun c => if c == '"' then ['"', '"'] else [c]) ++ "\"")) := by
  refine ⟨by decide, by decide, fun txs => ⟨rfl, by simp⟩, fun t => rfl,
    toFixed2_two_decimals, fun s => ⟨fun h => ?_, fun h => ?_⟩⟩
  · simp [csvSafe, h]
  · simp [csvSafe, h]

/-- C10 counterexample to the unamended claim: at an amount of `10^21`,
`toFixed(2)` returns the exponential string `"1e+21"`, which has no
two-decimal tail — so `Amount` is not rendered to exactly two decimal
places for every transaction list. -/
theorem c10_counterexample :
    toFixed2 (JsNum.finite ((10 : ℚ) ^ 21)) = "1e+21" ∧
    ¬ ∃ (pre : List Char) (d1 d2 : Char),
        (toFixed2 (JsNum.finite ((10 : ℚ) ^ 21))).data = pre ++ ['.', d1, d2] ∧
        d1.isDigit = true ∧ d2.isDigit = true := by
  have hval : toFixed2 (JsNum.finite ((10 : ℚ) ^ 21)) = "1e+21" := by decide
  refine ⟨hval, ?_⟩
  rintro ⟨pre, d1, d2, h, _, _⟩
  have hdot : '.' ∈ (toFixed2 (JsNum.finite ((10 : ℚ) ^ 21))).data := by
    rw [h]
    exact List.mem_append_right _ (List.mem_cons_self _ _)
  rw [hval] at hdot
  exact absurd hdot (by decide)

/-- Concrete instantiation of the C10 theorem: a description containing a
comma is escaped. -/
theorem c10_witness :
    (("a,b" : String).data.any (fun c => c == '"' || c == ',' || c == '\n') = true) ∧
    csvSafe "a,b" = "\"a,b\"" := by
  have h : (("a,b" : String).data.any (fun c => c == '"' || c == ',' || c == '\n') = true) := by
    decide
  refine ⟨h, ?_⟩
  have h2 := (c10_toSelfAssessmentCSV.2.2.2.2.2 "a,b").2 h
  rw [h2]
  decide

end OBWeb


namespace OBCore

/-- Looking up a nonce after replacing its entry finds the replacement. -/
theorem lookupNonce_setNonce (tr : Tracker) (n : String) (r r2 : AuthorizationRequest)
    (h : lookupNonce tr n = some r) : lookupNonce (setNonce tr n r2) n = some r2 := by
  induction tr with
  | nil => simp [lookupNonce] at h
  | cons a rest ih =>
    obtain ⟨k, v⟩ := a
    by_cases hk : k = n
    · simp [lookupNonce, setNonce, hk]
    · simp only [lookupNonce, setNonce, hk, if_false] at h ⊢
      exact ih h

/-- C1: `consume` succeeds at most once per nonce: it fails with
`NonceNotFound` on an unknown nonce, with `NonceAlreadyConsumed` when the
stored status is not `Issued` (a replay is rejected, not idempotently
accepted), with `NonceExpired` past the expiry window; otherwise it
succeeds, transitioning the request from `Issued` to `Consumed`, after
which a second `consume` of the same nonce always fails. -/
theorem c1_consume_at_most_once (tr : Tracker) (nonce : String) (now : Nat) :
    (lookupNonce tr nonce = none → consume now nonce tr = .error .NonceNotFound) ∧
    (∀ r, lookupNonce tr nonce = some r → r.status ≠ ReqStatus.Issued →
      consume now nonce tr = .error .NonceAlreadyConsumed) ∧
    (∀ r, lookupNonce tr nonce = some r → r.status = ReqStatus.Issued → r.expires_at < now →
      consume now nonce tr = .error .NonceExpired) ∧
    (∀ r, lookupNonce tr nonce = some r → r.status = ReqStatus.Issued → ¬ r.expires_at < now →
      ∃ tr2, consume now nonce tr = .ok ({ r with status := ReqStatus.Consumed }, tr2) ∧
        lookupNonce tr2 nonce = some { r with status := ReqStatus.Consumed } ∧
        ∀ now2, consume now2 nonce tr2 = .error .NonceAlreadyConsumed) := by
  refine ⟨?_, ?_, ?_, ?_⟩
  · intro h; simp [consume, h]
  · intro r hr hs; simp [consume, hr, hs]
  · intro r hr hs he; simp [consume, hr, hs, he]
  · intro r hr hs he
    refine ⟨setNonce tr nonce { r with status := ReqStatus.Consumed }, ?_, ?_, ?_⟩
    · simp [consume, hr, hs, he]
    · exact lookupNonce_setNonce tr nonce r _ hr
    · intro now2
      have h2 := lookupNonce_setNonce tr nonce r { r with status := ReqStatus.Consumed } hr
      simp [consume, h2]

/-- Concrete instantiation of the C1 theorem: a fresh nonce is consumed
once and every further consume is rejected as a replay. -/
theorem c1_witness :
    lookupNonce [("n1", sampleRequest)] "n1" = some sampleRequest ∧
    sampleRequest.status = ReqStatus.Issued ∧ ¬ sampleRequest.expires_at < 5 ∧
    ∃ tr2, consume 5 "n1" [("n1", sampleRequest)]
        = .ok ({ sampleRequest with status := ReqStatus.Consumed }, tr2) ∧
      lookupNonce tr2 "n1" = some { sampleRequest with status := ReqStatus.Consumed } ∧
      ∀ now2, consume now2 "n1" tr2 = .error .NonceAlreadyConsumed :=
  ⟨by decide, by decide, by decide,
    (c1_consume_at_most_once [("n1", sampleRequest)] "n1" 5).2.2.2 sampleRequest
      (by decide) (by decide) (by decide)⟩

/-- C2: after a grant's `expires_at`, `lookup` never returns an `Active`
grant: an unknown subject yields `NotFound`, and a stored grant whose
`expires_at` lies strictly before the read time is returned marked
`Expired`, whether or not the sweeper has run (the statement quantifies
over every ledger state). -/
theorem c2_lookup_lazy_expiry (L : Ledger) (s : String) (t : Nat) :
    (findSubject L s = none → (lookupGrant t s L).1 = .error .NotFound) ∧
    (∀ g, findSubject L s = some g → g.expires_at < t →
      ∃ g2, (lookupGrant t s L).1 = .ok g2 ∧ g2.status = GrantStatus.Expired ∧
        g2.status ≠ GrantStatus.Active) := by
  constructor
  · intro h; simp [lookupGrant, h]
  · intro g hg he
    exact ⟨{ g with status := GrantStatus.Expired }, by simp [lookupGrant, hg, he], rfl, by simp⟩

/-- Concrete instantiation of the C2 theorem: a grant that expired at time
10 is looked up at time 11 and comes back `Expired`. -/
theorem c2_witness :
    findSubject [sampleGrant] "alice" = some sampleGrant ∧ sampleGrant.expires_at < 11 ∧
    ∃ g2, (lookupGrant 11 "alice" [sampleGrant]).1 = .ok g2 ∧
      g2.status = GrantStatus.Expired ∧ g2.status ≠ GrantStatus.Active :=
  ⟨by decide, by decide,
    (c2_lookup_lazy_expiry [sampleGrant] "alice" 11).2 sampleGrant (by decide) (by decide)⟩

/-- Finding an id after replacing its entry finds the replacement. -/
theorem findId_setById (L : Ledger) (i : String) (g g2 : ConsentGrant)
    (hf : findId L i = some g) (hid : g2.id = i) :
    findId (setById L i g2) i = some g2 := by
  induction L with
  | nil => simp [findId] at hf
  | cons a rest ih =>
    by_cases ha : a.id = i
    · simp [findId, setById, ha, hid]
    · have hf2 : findId rest i = some g := by
        simpa [findId, ha] using hf
      simpa [findId, setById, ha] using ih hf2

/-- C3: `revoke` is idempotent: on any grant id present in the ledger it
returns success, a second call on the resulting ledger returns success
again (the second call on an already-terminal grant is a no-op success),
and the grant's status after both calls is terminal. -/
theorem c3_revoke_idempotent (L : Ledger) (i : String) (g : ConsentGrant)
    (hf : findId L i = some g) :
    ∃ L1, revoke i L = .ok L1 ∧
      ∃ L2, revoke i L1 = .ok L2 ∧
        ∃ g2, findId L2 i = some g2 ∧
          (g2.status = GrantStatus.Revoked ∨ g2.status = GrantStatus.Expired) ∧
          g2.status ≠ GrantStatus.Active := by
  have hgid : g.id = i := by
    have := List.find?_some hf
    simpa using this
  cases hst : g.status with
  | Active =>
    have h2 : findId (setById L i { g with status := GrantStatus.Revoked }) i
        = some { g with status := GrantStatus.Revoked } :=
      findId_setById L i g _ hf hgid
    have h1 : revoke i L = .ok (setById L i { g with status := GrantStatus.Revoked }) := by
      simp [revoke, hf, hst]
    have h3 : revoke i (setById L i { g with status := GrantStatus.Revoked })
        = .ok (setById L i { g with status := GrantStatus.Revoked }) := by
      simp [revoke, h2]
    exact ⟨_, h1, _, h3, _, h2, Or.inl rfl, by simp⟩
  | Expired =>
    exact ⟨L, by simp [revoke, hf, hst], L, by simp [revoke, hf, hst], g, hf,
      Or.inr hst, by simp [hst]⟩
  | Revoked =>
    exact ⟨L, by simp [revoke, hf, hst], L, by simp [revoke, hf, hst], g, hf,
      Or.inl hst, by simp [hst]⟩

/-- C6: token-exchange failure is atomic with respect to the consent
ledger: whenever the callback flow returns an error (nonce rejection, a
terminal 4xx, or an exhausted retry budget), the ledger afterwards is
exactly the ledger before; a grant is appended only on full success. -/
theorem c6_failed_exchange_atomic (now : Nat) (nonce subject gid : String)
    (rl : Nat) (att : List Attempt) (ttl : Nat) (w : World) :
    (∀ e, (handleCallback now nonce subject gid rl att ttl w).1 = .error e →
      (handleCallback now nonce subject gid rl att ttl w).2.ledger = w.ledger) ∧
    (∀ g, (handleCallback now nonce subject gid rl att ttl w).1 = .ok g →
      (handleCallback now nonce subject gid rl att ttl w).2.ledger = w.ledger ++ [g]) := by
  constructor
  · intro e he
    unfold handleCallback at he ⊢
    cases hc : consume now nonce w.tracker with
    | error e0 => simp
    | ok pr =>
      obtain ⟨r, tr2⟩ := pr
      cases hx : exchange rl att with
      | error e1 => simp
      | ok tp =>
        rw [hc, hx] at he
        simp at he
  · intro g hg
    unfold handleCallback at hg ⊢
    cases hc : consume now nonce w.tracker with
    | error e0 =>
      rw [hc] at hg
      simp at hg
    | ok pr =>
      obtain ⟨r, tr2⟩ := pr
      cases hx : exchange rl att with
      | error e1 =>
        rw [hc, hx] at hg
        simp at hg
      | ok tp =>
        rw [hc, hx] at hg
        simp at hg ⊢
        exact hg

/-- Concrete instantiation of the C6 theorem: a terminal 4xx on the token
endpoint surfaces an error and leaves the one-grant ledger untouched. -/
theorem c6_witness :
    (handleCallback 5 "n1" "bob" "g2" 3 [Attempt.terminal ExchangeError.AuthorizationCodeInvalid] 100
        ⟨[("n1", sampleRequest)], [sampleGrant], []⟩).1
      = .error (.exchange .AuthorizationCodeInvalid) ∧
    (handleCallback 5 "n1" "bob" "g2" 3 [Attempt.terminal ExchangeError.AuthorizationCodeInvalid] 100
        ⟨[("n1", sampleRequest)], [sampleGrant], []⟩).2.ledger = [sampleGrant] :=
  ⟨by rfl,
    (c6_failed_exchange_atomic 5 "n1" "bob" "g2" 3
        [Attempt.terminal ExchangeError.AuthorizationCodeInvalid] 100
        ⟨[("n1", sampleRequest)], [sampleGrant], []⟩).1
      (.exchange .AuthorizationCodeInvalid) (by rfl)⟩

/-- Counting grants with a given subject equals counting that subject in
the projected list. -/
theorem countP_subject_eq_count (L : Ledger) (s : String) :
    (L.countP fun x => x.subject_ref == s) = (L.map fun x => x.subject_ref).count s := by
  induction L with
  | nil => simp
  | cons a rest ih =>
    by_cases h : a.subject_ref = s <;>
      simp [List.countP_cons, List.count_cons, h, ih]

/-- The sweeper's transition does not change the subject reference. -/
theorem expireGrant_subject_ref (x : ConsentGrant) :
    (expireGrant x).subject_ref = x.subject_ref := by
  unfold expireGrant
  split <;> rfl

/-- C7: after one sweep at time `now`, every ledger entry whose
`expires_at` lies before `now` has been transitioned to a terminal status
(the recorded transition is never `Active`), exactly one `GrantExpired`
audit event has been emitted for it, and it has been removed from the
store, so every subsequent lookup for its subject returns `NotFound`.
Subjects are assumed unique in the store, as `lookup` is keyed on them. -/
theorem c7_sweeper (L : Ledger) (now : Nat) (g : ConsentGrant)
    (hnd : (L.map fun x => x.subject_ref).Nodup)
    (hg : g ∈ L) (hexp : g.expires_at < now) :
    (expireGrant g).status ≠ GrantStatus.Active ∧
    findSubject (sweepLedger now L).1 g.subject_ref = none ∧
    (sweepLedger now L).2.countP
      (fun e => e.kind == AuditKind.GrantExpired && e.subject_ref == g.subject_ref) = 1 ∧
    ∀ t2, (lookupGrant t2 g.subject_ref (sweepLedger now L).1).1 = .error .NotFound := by
  have hinj := List.inj_on_of_nodup_map hnd
  have hnone : findSubject (sweepLedger now L).1 g.subject_ref = none := by
    unfold findSubject sweepLedger
    rw [List.find?_eq_none]
    intro x hx
    simp only [List.mem_filter] at hx
    obtain ⟨hxL, hxp⟩ := hx
    intro hbeq
    have hxs : x.subject_ref = g.subject_ref := by simpa using hbeq
    have hxg : x = g := hinj hxL hg hxs
    subst hxg
    simp [hexp] at hxp
  refine ⟨?_, hnone, ?_, ?_⟩
  · unfold expireGrant
    split <;> simp_all
  · unfold sweepLedger
    simp only [List.countP_map]
    have step : (List.filter (fun x => decide (x.expires_at < now)) L).countP
        (fun x => x.subject_ref == g.subject_ref) = 1 := by
      rw [List.countP_filter]
      have hle : (L.countP fun x => x.subject_ref == g.subject_ref && decide (x.expires_at < now))
          ≤ L.countP fun x => x.subject_ref == g.subject_ref := by
        apply List.countP_mono_left
        intro a _ ha
        simp at ha
        simp [ha]
      have hone : (L.countP fun x => x.subject_ref == g.subject_ref) = 1 := by
        rw [countP_subject_eq_count]
        exact List.count_eq_one_of_mem hnd (List.mem_map_of_mem _ hg)
      have hpos : 0 < L.countP fun x => x.subject_ref == g.subject_ref && decide (x.expires_at < now) := by
        rw [List.countP_pos_iff]
        exact ⟨g, hg, by simp [hexp]⟩
      omega
    refine Eq.trans (List.countP_congr ?_) step
    intro x hx
    simp [Function.comp, expireGrant_subject_ref]
  · intro t2
    simp [lookupGrant, hnone]

/-- Concrete instantiation of the C3 theorem: revoking the sample grant
twice succeeds both times and leaves it terminal. -/
theorem c3_witness :
    findId [sampleGrant] "g1" = some sampleGrant ∧
    ∃ L1, revoke "g1" [sampleGrant] = .ok L1 ∧
      ∃ L2, revoke "g1" L1 = .ok L2 ∧
        ∃ g2, findId L2 "g1" = some g2 ∧
          (g2.status = GrantStatus.Revoked ∨ g2.status = GrantStatus.Expired) ∧
          g2.status ≠ GrantStatus.Active :=
  ⟨by decide, c3_revoke_idempotent [sampleGrant] "g1" sampleGrant (by decide)⟩

end OBCore

namespace OBCore

/-- Concrete instantiation of the C7 theorem: a one-grant ledger whose
grant expired at time 10 is swept at time 11. -/
theorem c7_witness :
    (([sampleGrant].map fun x => x.subject_ref).Nodup) ∧
    sampleGrant ∈ [sampleGrant] ∧ sampleGrant.expires_at < 11 ∧
    findSubject (sweepLedger 11 [sampleGrant]).1 "alice" = none ∧
    (sweepLedger 11 [sampleGrant]).2.countP
      (fun e => e.kind == AuditKind.GrantExpired && e.subject_ref == "alice") = 1 := by
  have h := c7_sweeper [sampleGrant] 11 sampleGrant (by decide) (by decide) (by decide)
  exact ⟨by decide, by decide, by decide, h.2.1, h.2.2.1⟩

end OBCore

namespace OBWeb

/-- `Math.abs` of a non-NaN number always compares `>= 0`. -/
theorem jsNonneg_jsAbs (v : JsNum) : jsNonneg (jsAbs v) = true := by
  cases v with
  | finite q => simp [jsAbs, jsNonneg, abs_nonneg]
  | posInf => rfl
  | negInf => rfl

/-- Inversion of a successful `parseAmount`. -/
theorem parseAmount_eq_some (raw : String) (a : JsNum) (d : String)
    (h : parseAmount raw = some (a, d)) :
    ∃ v, jsNumber (stripAmount raw) = some v ∧ a = jsAbs v ∧
      d = if jsNonneg v then "in" else "out" := by
  unfold parseAmount at h
  cases hj : jsNumber (stripAmount raw) with
  | none => rw [hj] at h; simp at h
  | some v =>
    rw [hj] at h
    simp at h
    exact ⟨v, rfl, h.1.symm, h.2.symm⟩

/-- A successful run of `normalize`'s mapping body: lengths agree and each
output amount is `Math.abs` of the number its row parsed to — hence every
output amount compares `>= 0` — with direction `"in"` exactly when that
number compared `>= 0`. -/
theorem normalizeGo_ok (i : Nat) (rows : List CsvRow) (txs : List Tx)
    (h : normalizeGo i rows = .ok txs) :
    txs.length = rows.length ∧
    ∀ j (hj : j < txs.length) (hk : j < rows.length),
      ∃ v, jsNumber (stripAmount (rows[j]).Amount) = some v ∧
        (txs[j]).amount = jsAbs v ∧ jsNonneg (txs[j]).amount = true ∧
        ((txs[j]).direction = "in" ↔ jsNonneg v = true) := by
  induction rows generalizing i txs with
  | nil =>
    unfold normalizeGo at h
    simp at h
    subst h
    exact ⟨rfl, by intro j hj hk; simp at hj⟩
  | cons r rest ih =>
    unfold normalizeGo at h
    cases ha : parseAmount r.Amount with
    | none => rw [ha] at h; simp at h
    | some p =>
      obtain ⟨amount, direction⟩ := p
      rw [ha] at h
      cases hd : parseDateUK r.Date with
      | none => rw [hd] at h; simp at h
      | some date =>
        rw [hd] at h
        cases hrec : normalizeGo (i + 1) rest with
        | error e => rw [hrec] at h; simp at h
        | ok txs2 =>
          rw [hrec] at h
          simp at h
          obtain ⟨hlen, hpt⟩ := ih (i + 1) txs2 hrec
          subst h
          refine ⟨by simp [hlen], ?_⟩
          intro j hj hk
          cases j with
          | zero =>
            obtain ⟨v, hv, han, hdir⟩ := parseAmount_eq_some r.Amount amount direction ha
            refine ⟨v, by simpa using hv, by simpa using han, ?_, ?_⟩
            · simp only [List.getElem_cons_zero]
              rw [han]
              exact jsNonneg_jsAbs v
            · simp only [List.getElem_cons_zero]
              cases hnn : jsNonneg v <;> simp [hdir, hnn]
          | succ j2 =>
            simp only [List.getElem_cons_succ]
            exact hpt j2 (by simpa using hj) (by simpa using hk)

/-- A row whose amount does not parse makes `normalize`'s body throw. -/
theorem normalizeGo_err (i : Nat) (rows : List CsvRow) (r : CsvRow)
    (hr : r ∈ rows) (ha : parseAmount r.Amount = none) :
    ∃ e, normalizeGo i rows = .error e := by
  induction rows generalizing i with
  | nil => simp at hr
  | cons a rest ih =>
    rcases List.mem_cons.mp hr with h | h
    · subst h
      exact ⟨_, by unfold normalizeGo; rw [ha]⟩
    · cases hpa : parseAmount a.Amount with
      | none => exact ⟨_, by unfold normalizeGo; rw [hpa]⟩
      | some p =>
        obtain ⟨am, dr⟩ := p
        cases hpd : parseDateUK a.Date with
        | none => exact ⟨_, by unfold normalizeGo; rw [hpa, hpd]⟩
        | some dt =>
          obtain ⟨e, he⟩ := ih (i + 1) h
          exact ⟨e, by unfold normalizeGo; rw [hpa, hpd, he]⟩

/-- C8: for every CSV row whose `Amount` parses (after stripping commas,
pound signs and `\s` characters) to a finite number `n`, `normalize`
produces a transaction with `amount = |n|` — and every output amount,
finite or not, compares `>= 0` — with direction `"in"` exactly when
`0 ≤ n` (zero is `"in"`); a row whose `Amount` does not parse to a number
(NaN) makes `normalize` throw instead of producing a transaction. -/
theorem c8_normalize_amounts :
    (∀ raw n, jsNumber (stripAmount raw) = some (JsNum.finite n) →
      parseAmount raw = some (JsNum.finite |n|, if 0 ≤ n then "in" else "out") ∧ 0 ≤ |n| ∧
      ((if 0 ≤ n then "in" else "out") = "in" ↔ 0 ≤ n)) ∧
    (∀ raw, jsNumber (stripAmount raw) = none → parseAmount raw = none) ∧
    (∀ rows txs, normalize rows = .ok txs →
      txs.length = rows.length ∧
      ∀ j (hj : j < txs.length) (hk : j < rows.length),
        jsNonneg (txs[j]).amount = true ∧
        ∀ n, jsNumber (stripAmount (rows[j]).Amount) = some (JsNum.finite n) →
          (txs[j]).amount = JsNum.finite |n| ∧ ((txs[j]).direction = "in" ↔ 0 ≤ n)) ∧
    (∀ rows r, r ∈ rows → parseAmount r.Amount = none →
      ∃ e, normalize rows = .error e) := by
  refine ⟨?_, ?_, ?_, ?_⟩
  · intro raw n h
    refine ⟨by simp [parseAmount, h, jsAbs, jsNonneg], abs_nonneg n, ?_⟩
    by_cases hn : 0 ≤ n <;> simp [hn]
  · intro raw h
    simp [parseAmount, h]
  · intro rows txs h
    obtain ⟨hlen, hpt⟩ := normalizeGo_ok 0 rows txs h
    refine ⟨hlen, ?_⟩
    intro j hj hk
    obtain ⟨v, hv, hamt, hnn, hdir⟩ := hpt j hj hk
    refine ⟨hnn, ?_⟩
    intro n hn
    rw [hv] at hn
    simp at hn
    subst hn
    constructor
    · rw [hamt]
      rfl
    · rw [hdir]
      simp [jsNonneg]
  · intro rows r hr ha
    exact normalizeGo_err 0 rows r hr ha

/-- Concrete instantiation of the C8 theorem: a non-numeric amount makes
`normalize` fail. -/
theorem c8_witness :
    sampleRow ∈ [sampleRow] ∧ parseAmount sampleRow.Amount = none ∧
    ∃ e, normalize [sampleRow] = .error e :=
  ⟨by decide, by decide,
    c8_normalize_amounts.2.2.2 [sampleRow] sampleRow (by decide) (by decide)⟩

end OBWeb

namespace OBCore

/-- The digest is always 32 bytes. -/
theorem sha256_length (msg : List Nat) : (sha256 msg).length = 32 := rfl

/-- Length of the unpadded base64 encoding. -/
theorem b64NoPad_length (bs : List Nat) :
    (b64NoPad bs).length
      = 4 * (bs.length / 3) + (if bs.length % 3 = 0 then 0 else bs.length % 3 + 1) := by
  match bs with
  | [] => simp [b64NoPad]
  | [b1] => simp [b64NoPad]
  | [b1, b2] => simp [b64NoPad]
  | b1 :: b2 :: b3 :: rest =>
    have ih := b64NoPad_length rest
    simp only [b64NoPad, List.length_cons, ih]
    have h3 : (rest.length + 1 + 1 + 1) % 3 = rest.length % 3 := by omega
    have h4 : (rest.length + 1 + 1 + 1) / 3 = rest.length / 3 + 1 := by omega
    rw [h3, h4]
    by_cases h : rest.length % 3 = 0 <;> simp [h] <;> omega

/-- Every alphabet index lands inside the URL-safe alphabet. -/
theorem b64Char_mem (n : Nat) : b64Char n ∈ b64Chars := by
  by_cases h : n < 64
  · exact (by decide : ∀ m, m < 64 → b64Char m ∈ b64Chars) n h
  · unfold b64Char
    rw [List.getD_eq_default]
    · decide
    · have hlen : b64Chars.length = 64 := by decide
      omega

/-- Every character the encoder emits is in the URL-safe alphabet. -/
theorem b64NoPad_mem (bs : List Nat) : ∀ c ∈ b64NoPad bs, c ∈ b64Chars := by
  match bs with
  | [] => simp [b64NoPad]
  | [b1] =>
    intro c hc
    simp only [b64NoPad, List.mem_cons, List.not_mem_nil, or_false] at hc
    rcases hc with h | h <;> (subst h; exact b64Char_mem _)
  | [b1, b2] =>
    intro c hc
    simp only [b64NoPad, List.mem_cons, List.not_mem_nil, or_false] at hc
    rcases hc with h | h | h <;> (subst h; exact b64Char_mem _)
  | b1 :: b2 :: b3 :: rest =>
    intro c hc
    have ih := b64NoPad_mem rest
    simp only [b64NoPad, List.mem_cons] at hc
    rcases hc with h | h | h | h | h
    · subst h; exact b64Char_mem _
    · subst h; exact b64Char_mem _
    · subst h; exact b64Char_mem _
    · subst h; exact b64Char_mem _
    · exact ih c h

/-- C4: `build_challenge` is the deterministic reference transform — the
URL-safe, unpadded base64 encoding of the SHA-256 digest of the verifier
bytes: two evaluations on the same verifier agree (the function is pure),
the challenge is always 43 characters of the URL-safe alphabet, and no
padding character appears.  (Collision resistance of SHA-256 — distinct
verifiers giving distinct challenges beyond negligible probability — is a
cryptographic assumption, not a provable statement.) -/
theorem c4_build_challenge (v : List Nat) :
    build_challenge v = String.mk (b64NoPad (sha256 v)) ∧
    build_challenge v = build_challenge v ∧
    (build_challenge v).length = 43 ∧
    ((build_challenge v).data.all fun c => decide (c ∈ b64Chars)) = true ∧
    ('=' ∉ (build_challenge v).data) := by
  have hdata : (build_challenge v).data = b64NoPad (sha256 v) := rfl
  have hlen : (b64NoPad (sha256 v)).length = 43 := by
    rw [b64NoPad_length, sha256_length]
    decide
  have hmem := b64NoPad_mem (sha256 v)
  refine ⟨rfl, rfl, ?_, ?_, ?_⟩
  · show (build_challenge v).data.length = 43
    rw [hdata]
    exact hlen
  · rw [List.all_eq_true]
    intro c hc
    rw [hdata] at hc
    exact decide_eq_true (hmem c hc)
  · intro hc
    rw [hdata] at hc
    exact absurd (hmem _ hc) (by decide)

/-- Concrete instantiation of the C4 theorem: the challenge of the
verifier bytes `"abc"` is 43 characters long and unpadded. -/
theorem c4_witness :
    (build_challenge [97, 98, 99]).length = 43 ∧ ('=' ∉ (build_challenge [97, 98, 99]).data) :=
  ⟨(c4_build_challenge [97, 98, 99]).2.2.1, (c4_build_challenge [97, 98, 99]).2.2.2.2⟩

end OBCore

namespace OBCore

/-- A string strictly shorter than the secret cannot contain it. -/
theorem not_infix_of_length_lt (secret f : List Char) (h : f.length < secret.length) :
    ¬ secret <:+: f :=
  fun hin => absurd hin.length_le (by omega)

/-- Every event-kind name is shorter than a verifier-sized secret. -/
theorem kindName_short (k : AuditKind) : (kindName k).data.length < 43 := by
  cases k <;> decide

/-- Digit-count bound for the decimal rendering. -/
theorem natDigits_length (n k : Nat) (h : n < 10 ^ (k + 1)) :
    (natDigits n).length ≤ k + 1 := by
  induction k generalizing n with
  | zero =>
    unfold natDigits
    rw [if_pos (by simpa using h)]
    simp
  | succ k2 ih =>
    unfold natDigits
    by_cases hn : n < 10
    · rw [if_pos hn]
      simp
    · rw [if_neg hn, List.length_append]
      have hp : 10 ^ (k2 + 1 + 1) = 10 ^ (k2 + 1) * 10 := by ring
      have hdiv : n / 10 < 10 ^ (k2 + 1) := by omega
      have := ih (n / 10) hdiv
      simp only [List.length_cons, List.length_nil]
      omega

/-- The token hash rendering is always eight characters. -/
theorem hash8_length (t : String) : (hash8 t).length = 8 := by
  simp [hash8]

/-- A token fingerprint is shorter than a verifier-sized secret. -/
theorem fingerprint_short (t : String) (h : t.length < 1000000000) :
    (fingerprint t).data.length < 43 := by
  have hpow : (10 : Nat) ^ (8 + 1) = 1000000000 := by norm_num
  have hnd : (natDigits t.length).length ≤ 9 := by
    have := natDigits_length t.length 8 (by omega)
    omega
  show (("len=".data ++ natDigits t.length ++ ";h=".data ++ hash8 t)).length < 43
  have h3 := hash8_length t
  simp only [List.length_append, String.data, List.length_cons, List.length_nil]
  omega

/-- An event is clean when its kind name and detail are shorter than the
secret and the subject does not contain it. -/
theorem eventOk_intro (secret : List Char) (e : AuditEvent)
    (hk : (kindName e.kind).data.length < secret.length)
    (hsub : ¬ secret <:+: e.subject_ref.data)
    (hdet : e.detail.data.length < secret.length) :
    eventOk secret e := by
  intro f hf
  simp only [renderFields, List.mem_cons, List.not_mem_nil, or_false] at hf
  rcases hf with h | h | h
  · subst h
    exact not_infix_of_length_lt _ _ hk
  · subst h
    exact hsub
  · subst h
    exact not_infix_of_length_lt _ _ hdet

/-- Subject-less, detail-less events are clean. -/
theorem eventOk_blank (secret : List Char) (hs : 43 ≤ secret.length)
    (k : AuditKind) (ts : Nat) : eventOk secret ⟨k, "", ts, ""⟩ := by
  refine eventOk_intro secret _ ?_ ?_ ?_
  · show (kindName k).data.length < secret.length
    have := kindName_short k
    omega
  · show ¬ secret <:+: ("" : String).data
    apply not_infix_of_length_lt
    show (("" : String).data).length < secret.length
    have hz : (("" : String).data).length = 0 := rfl
    omega
  · show (("" : String).data).length < secret.length
    have hz : (("" : String).data).length = 0 := rfl
    omega

/-- Detail-less events with a clean subject are clean. -/
theorem eventOk_subject (secret : List Char) (hs : 43 ≤ secret.length)
    (k : AuditKind) (s : String) (ts : Nat) (hsub : ¬ secret <:+: s.data) :
    eventOk secret ⟨k, s, ts, ""⟩ := by
  refine eventOk_intro secret _ ?_ hsub ?_
  · show (kindName k).data.length < secret.length
    have := kindName_short k
    omega
  · show (("" : String).data).length < secret.length
    have hz : (("" : String).data).length = 0 := rfl
    omega

/-- Events whose detail is a token fingerprint are clean. -/
theorem eventOk_fingerprint (secret : List Char) (hs : 43 ≤ secret.length)
    (k : AuditKind) (s : String) (ts : Nat) (t : String)
    (hsub : ¬ secret <:+: s.data) (ht : t.length < 1000000000) :
    eventOk secret ⟨k, s, ts, fingerprint t⟩ := by
  refine eventOk_intro secret _ ?_ hsub ?_
  · show (kindName k).data.length < secret.length
    have := kindName_short k
    omega
  · show ((fingerprint t).data).length < secret.length
    have := fingerprint_short t ht
    omega

/-- Replacing an entry only introduces the replacement. -/
theorem mem_setById (L : Ledger) (i : String) (g2 x : ConsentGrant)
    (hx : x ∈ setById L i g2) : x ∈ L ∨ x = g2 := by
  induction L with
  | nil => simp [setById] at hx
  | cons a rest ih =>
    by_cases ha : a.id = i
    · simp only [setById, if_pos ha, List.mem_cons] at hx
      rcases hx with h | h
      · exact Or.inr h
      · exact Or.inl (List.mem_cons_of_mem _ h)
    · simp only [setById, if_neg ha, List.mem_cons] at hx
      rcases hx with h | h
      · exact Or.inl (by simp [h])
      · rcases ih h with h2 | h2
        · exact Or.inl (List.mem_cons_of_mem _ h2)
        · exact Or.inr h2

/-- A successful exchange returns a token offered by some attempt. -/
theorem exchange_ok_token (n : Nat) (att : List Attempt) (tp : TokenPair)
    (h : exchange n att = .ok tp) :
    tp.access_token ∈ att.foldr
      (fun a acc => match a with
        | Attempt.success tp2 => tp2.access_token :: acc
        | _ => acc) [] := by
  induction att generalizing n with
  | nil => cases n <;> simp [exchange] at h
  | cons a rest ih =>
    cases n with
    | zero => simp [exchange] at h
    | succ m =>
      cases a with
      | transient =>
        simp only [exchange] at h
        simpa using ih m h
      | terminal e => simp [exchange] at h
      | success tp2 =>
        simp only [exchange] at h
        simp at h
        subst h
        simp

/-- One operation preserves the redaction invariant. -/
theorem execOp_preserves (secret : List Char) (op : Op) (w : World)
    (hs : 43 ≤ secret.length)
    (hop : opOk secret op = true)
    (hw : worldOk secret w) : worldOk secret (execOp op w) := by
  obtain ⟨hlog, hled⟩ := hw
  cases op with
  | issue now nonce verifier scopes ttl =>
    constructor
    · intro e he
      simp only [execOp, issue] at he
      rcases List.mem_append.mp he with h | h
      · exact hlog e h
      · simp only [List.mem_singleton] at h
        subst h
        exact eventOk_blank secret hs _ _
    · intro g hg
      simp only [execOp, issue] at hg
      exact hled g hg
  | consume now nonce =>
    constructor
    · intro e he
      simp only [execOp] at he
      cases hc : consume now nonce w.tracker with
      | error e0 =>
        rw [hc] at he
        exact hlog e he
      | ok pr =>
        obtain ⟨r, tr2⟩ := pr
        rw [hc] at he
        simp only [] at he
        rcases List.mem_append.mp he with h | h
        · exact hlog e h
        · simp only [List.mem_singleton] at h
          subst h
          exact eventOk_blank secret hs _ _
    · intro g hg
      simp only [execOp] at hg
      cases hc : consume now nonce w.tracker with
      | error e0 =>
        rw [hc] at hg
        exact hled g hg
      | ok pr =>
        obtain ⟨r, tr2⟩ := pr
        rw [hc] at hg
        exact hled g hg
  | callback now nonce subject gid rl att ttl =>
    simp only [opOk, Bool.and_eq_true, List.all_eq_true] at hop
    have hsubj2 : ¬ secret <:+: subject.data := by
      have := hop.1 subject (by simp [Op.subjects])
      simpa using this
    have htok : ∀ t ∈ Op.tokens (Op.callback now nonce subject gid rl att ttl),
        t.length < 1000000000 := by
      intro t ht
      have := hop.2 t ht
      simpa using this
    constructor
    · intro e he
      simp only [execOp] at he
      unfold handleCallback at he
      cases hc : consume now nonce w.tracker with
      | error e0 =>
        rw [hc] at he
        exact hlog e he
      | ok pr =>
        obtain ⟨r, tr2⟩ := pr
        rw [hc] at he
        cases hx : exchange rl att with
        | error e1 =>
          rw [hx] at he
          simp only [] at he
          rcases List.mem_append.mp he with h | h
          · rcases List.mem_append.mp h with h2 | h2
            · exact hlog e h2
            · simp only [List.mem_singleton] at h2
              subst h2
              exact eventOk_blank secret hs _ _
          · simp only [List.mem_singleton] at h
            subst h
            exact eventOk_subject secret hs _ _ _ hsubj2
        | ok tp =>
          rw [hx] at he
          simp only [] at he
          rcases List.mem_append.mp he with h | h
          · rcases List.mem_append.mp h with h2 | h2
            · exact hlog e h2
            · simp only [List.mem_singleton] at h2
              subst h2
              exact eventOk_blank secret hs _ _
          · simp only [List.mem_singleton] at h
            subst h
            apply eventOk_fingerprint secret hs _ _ _ _ hsubj2
            apply htok
            have hmem := exchange_ok_token rl att tp hx
            simpa [Op.tokens] using hmem
    · intro g hg
      simp only [execOp] at hg
      unfold handleCallback at hg
      cases hc : consume now nonce w.tracker with
      | error e0 =>
        rw [hc] at hg
        exact hled g hg
      | ok pr =>
        obtain ⟨r, tr2⟩ := pr
        rw [hc] at hg
        cases hx : exchange rl att with
        | error e1 =>
          rw [hx] at hg
          exact hled g hg
        | ok tp =>
          rw [hx] at hg
          simp only [] at hg
          rcases List.mem_append.mp hg with h | h
          · exact hled g h
          · simp only [List.mem_singleton] at h
            subst h
            exact hsubj2
  | lookup now subject =>
    constructor
    · intro e he
      simp only [execOp] at he
      exact hlog e he
    · intro g hg
      simp only [execOp] at hg
      unfold lookupGrant at hg
      cases hf : findSubject w.ledger subject with
      | none =>
        rw [hf] at hg
        exact hled g hg
      | some g0 =>
        rw [hf] at hg
        simp only [] at hg
        by_cases hex : g0.expires_at < now
        · rw [if_pos hex] at hg
          rcases mem_setById w.ledger g0.id { g0 with status := GrantStatus.Expired } g hg with h | h
          · exact hled g h
          · subst h
            have hg0 : g0 ∈ w.ledger := List.mem_of_find?_eq_some hf
            simpa using hled g0 hg0
        · rw [if_neg hex] at hg
          exact hled g hg
  | revoke now i =>
    constructor
    · intro e he
      simp only [execOp] at he
      cases hf : findId w.ledger i with
      | none =>
        rw [hf] at he
        exact hlog e he
      | some g0 =>
        rw [hf] at he
        simp only [] at he
        by_cases hst : g0.status = GrantStatus.Active
        · rw [if_pos hst] at he
          rcases List.mem_append.mp he with h | h
          · exact hlog e h
          · simp only [List.mem_singleton] at h
            subst h
            exact eventOk_subject secret hs _ _ _ (hled g0 (List.mem_of_find?_eq_some hf))
        · rw [if_neg hst] at he
          exact hlog e he
    · intro g hg
      simp only [execOp] at hg
      cases hf : findId w.ledger i with
      | none =>
        rw [hf] at hg
        exact hled g hg
      | some g0 =>
        rw [hf] at hg
        simp only [] at hg
        by_cases hst : g0.status = GrantStatus.Active
        · rw [if_pos hst] at hg
          rcases mem_setById w.ledger i { g0 with status := GrantStatus.Revoked } g hg with h | h
          · exact hled g h
          · subst h
            simpa using hled g0 (List.mem_of_find?_eq_some hf)
        · rw [if_neg hst] at hg
          exact hled g hg
  | sweep now =>
    constructor
    · intro e he
      simp only [execOp] at he
      rcases List.mem_append.mp he with h | h
      · rcases List.mem_append.mp h with h2 | h2
        · exact hlog e h2
        · unfold sweepLedger at h2
          simp only [List.mem_map] at h2
          obtain ⟨x, hx, hxe⟩ := h2
          obtain ⟨y, hy, hyx⟩ := hx
          subst hyx
          subst hxe
          refine eventOk_subject secret hs _ _ _ ?_
          rw [expireGrant_subject_ref]
          exact hled y (List.mem_of_mem_filter hy)
      · unfold sweepTracker at h
        simp only [List.mem_map] at h
        obtain ⟨x, hx, hxe⟩ := h
        subst hxe
        exact eventOk_blank secret hs _ _
    · intro g hg
      simp only [execOp] at hg
      unfold sweepLedger at hg
      exact hled g (List.mem_of_mem_filter hg)

/-- A whole execution preserves the redaction invariant. -/
theorem run_preserves (secret : List Char) (ops : List Op) (w : World)
    (hs : 43 ≤ secret.length)
    (hops : ∀ op ∈ ops, opOk secret op = true)
    (hw : worldOk secret w) : worldOk secret (run ops w) := by
  induction ops generalizing w with
  | nil => exact hw
  | cons op rest ih =>
    exact ih (execOp op w) (fun o ho => hops o (List.mem_cons_of_mem _ ho))
      (execOp_preserves secret op w hs (hops op (List.mem_cons_self _ _)) hw)

/-- C5: for every execution of the core from the initial state and every
secret value of verifier size (at least 43 characters) that does not occur
inside a caller-chosen subject reference, no emitted audit event contains
the secret as a substring of any of its string fields: at most a token's
length and fixed-width hash appear in a detail field. -/
theorem c5_no_secret_in_audit (ops : List Op) (secret : List Char)
    (hs : 43 ≤ secret.length)
    (hops : ∀ op ∈ ops, opOk secret op = true) :
    ∀ e ∈ (run ops World.init).log, ∀ f ∈ renderFields e, ¬ secret <:+: f := by
  have hinit : worldOk secret World.init := by
    constructor
    · intro e he
      simp [World.init] at he
    · intro g hg
      simp [World.init] at hg
  exact fun e he f hf => (run_preserves secret ops World.init hs hops hinit).1 e he f hf

/-- Concrete instantiation of the C5 theorem on a four-operation run and a
43-character secret. -/
theorem c5_witness :
    43 ≤ sampleSecret.length ∧ (∀ op ∈ sampleOps, opOk sampleSecret op = true) ∧
    ∀ e ∈ (run sampleOps World.init).log, ∀ f ∈ renderFields e, ¬ sampleSecret <:+: f :=
  ⟨by decide, by decide,
    c5_no_secret_in_audit sampleOps sampleSecret (by decide) (by decide)⟩

end OBCore
